import Mathlib

/-!
Shallow embedding of `document_processor.py`, the knowledge-base document
pre-processor (format adapters, heuristic Q&A synthesis, keyword
extraction, pipeline driver).

Modelling conventions:
* Python strings are Lean `String`s; character-level work happens on
  `String.data : List Char`.
* `re` operations (`re.sub`, `re.search`, `re.findall`) are modelled by
  fuelled left-to-right scanners.  Every scanner advances at least one
  character per step, so fuel equal to the input length is exact; the
  fuel only serves to make the definitions structurally recursive (and
  hence kernel-computable).
* `\d` is modelled as the ASCII digits, `\s` as `Char.isWhitespace`, and
  `\w` as ASCII alphanumerics, `_`, and the CJK unified-ideograph block
  used by the repository's data.
* Python dicts with a fixed key set are structures; keys that a given
  producer never writes keep their default (`[]` / `none`), matching
  `dict.get(key, default)` at the consumer.
* CPython's `list(set(xs))` enumerates a hash-based set in an order that
  is not specified (string hashing is randomized per process); it is
  modelled by an explicit enumeration function `setList` constrained by
  `SetListValid` (no duplicates, same membership).
-/

/-- Boolean test that `tok` is a leading segment of `l`. -/
def leadsWith : List Char → List Char → Bool
  | [], _ => true
  | _ :: _, [] => false
  | a :: as, b :: bs => a == b && leadsWith as bs

/-- Case-insensitive variant of `leadsWith` (Python `re.IGNORECASE`). -/
def ciLeads : List Char → List Char → Bool
  | [], _ => true
  | _ :: _, [] => false
  | a :: as, b :: bs => a.toLower == b.toLower && ciLeads as bs

/-- Substring occurrence test on character lists (Python `pat in s`). -/
def containsSubAux (pat : List Char) : List Char → Bool
  | [] => pat.isEmpty
  | c :: cs => leadsWith pat (c :: cs) || containsSubAux pat cs

/-- Python's substring containment `pat in s`. -/
def pyContains (s pat : String) : Bool :=
  containsSubAux pat.data s.data

/-- Python `str.lower()` (only ASCII letters occur in the lowered data). -/
def pyLower (s : String) : String :=
  String.mk (s.data.map Char.toLower)

/-- Python `str.strip()` on a character list: drop leading and trailing
whitespace. -/
def pyStripList (l : List Char) : List Char :=
  ((l.dropWhile Char.isWhitespace).reverse.dropWhile Char.isWhitespace).reverse

/-- Python `str.strip()`. -/
def pyStrip (s : String) : String :=
  String.mk (pyStripList s.data)

/-- Core of `re.sub(r'\n+', '\n', s)`: the flag records whether the
previous emitted character position lies inside a newline run. -/
def collapseGo : Bool → List Char → List Char
  | _, [] => []
  | inNl, c :: cs =>
    if c == '\n' then
      if inNl then collapseGo true cs else '\n' :: collapseGo true cs
    else c :: collapseGo false cs

/-- Model of `re.sub(r'\n+', '\n', s)`. -/
def collapseNewlines (s : String) : String :=
  String.mk (collapseGo false s.data)

/-- Model of line 409 of the source:
`content = re.sub(r'\n+', '\n', content.strip())`. -/
def cleanContent (s : String) : String :=
  collapseNewlines (pyStrip s)

/-- ASCII digit test, modelling `\d` on the repository's data. -/
def pyIsDigit (c : Char) : Bool := c.isDigit

/-- Model of Python's `\w` on the character ranges the repository uses:
ASCII alphanumerics, underscore, and CJK unified ideographs. -/
def pyIsWordChar (c : Char) : Bool :=
  c.isAlphanum || c == '_' || (0x4e00 ≤ c.toNat && c.toNat ≤ 0x9fff)

/-- CJK unified ideograph test, modelling the class `[一-鿿]`. -/
def isCJK (c : Char) : Bool :=
  0x4e00 ≤ c.toNat && c.toNat ≤ 0x9fff

/-- Attempt to match `\d{4}-\d{2}-\d{2}` at the head; on success return
the remainder after the ten matched characters. -/
def dateAt : List Char → Option (List Char)
  | a :: b :: c :: d :: e :: f :: g :: h :: i :: j :: rest =>
    if pyIsDigit a && pyIsDigit b && pyIsDigit c && pyIsDigit d && e == '-' &&
       pyIsDigit f && pyIsDigit g && h == '-' && pyIsDigit i && pyIsDigit j
    then some rest else none
  | _ => none

/-- Fuelled scanner for `re.sub(r'\d{4}-\d{2}-\d{2}', '[日期]', s)`. -/
def subDateGo : Nat → List Char → List Char
  | 0, l => l
  | _ + 1, [] => []
  | n + 1, c :: cs =>
    match dateAt (c :: cs) with
    | some rest => ("[日期]").data ++ subDateGo n rest
    | none => c :: subDateGo n cs

/-- Model of `re.sub(r'\d{4}-\d{2}-\d{2}', '[日期]', s)`. -/
def subDate (s : String) : String :=
  String.mk (subDateGo s.data.length s.data)

/-- Fuelled scanner for `re.sub(r'\d+', '[数字]', s)`: a digit run is
replaced as a whole. -/
def subDigitsGo : Nat → List Char → List Char
  | 0, l => l
  | _ + 1, [] => []
  | n + 1, c :: cs =>
    if pyIsDigit c then ("[数字]").data ++ subDigitsGo n (cs.dropWhile pyIsDigit)
    else c :: subDigitsGo n cs

/-- Model of `re.sub(r'\d+', '[数字]', s)`. -/
def subDigits (s : String) : String :=
  String.mk (subDigitsGo s.data.length s.data)

/-- Attempt to match `小区\d+` at the head; on success return the
remainder after the greedy digit run. -/
def xiaoquAt : List Char → Option (List Char)
  | a :: b :: rest =>
    if a == '小' && b == '区' && !(rest.takeWhile pyIsDigit).isEmpty then
      some (rest.dropWhile pyIsDigit)
    else none
  | _ => none

/-- Fuelled scanner for `re.sub(r'小区\d+', '[小区名称]', s)`. -/
def subXiaoquGo : Nat → List Char → List Char
  | 0, l => l
  | _ + 1, [] => []
  | n + 1, c :: cs =>
    match xiaoquAt (c :: cs) with
    | some rest => ("[小区名称]").data ++ subXiaoquGo n rest
    | none => c :: subXiaoquGo n cs

/-- Model of `re.sub(r'小区\d+', '[小区名称]', s)`. -/
def subXiaoqu (s : String) : String :=
  String.mk (subXiaoquGo s.data.length s.data)

/-- Attempt to match `用户\w+` at the head; on success return the
remainder after the greedy word-character run. -/
def yonghuAt : List Char → Option (List Char)
  | a :: b :: rest =>
    if a == '用' && b == '户' && !(rest.takeWhile pyIsWordChar).isEmpty then
      some (rest.dropWhile pyIsWordChar)
    else none
  | _ => none

/-- Fuelled scanner for `re.sub(r'用户\w+', '[用户名]', s)`. -/
def subYonghuGo : Nat → List Char → List Char
  | 0, l => l
  | _ + 1, [] => []
  | n + 1, c :: cs =>
    match yonghuAt (c :: cs) with
    | some rest => ("[用户名]").data ++ subYonghuGo n rest
    | none => c :: subYonghuGo n cs

/-- Model of `re.sub(r'用户\w+', '[用户名]', s)`. -/
def subYonghu (s : String) : String :=
  String.mk (subYonghuGo s.data.length s.data)

/-- Fuelled collector of maximal CJK runs, as scanned by
`re.findall(r'[一-鿿]{2,}', s)` before the length filter. -/
def cjkRunsGo : Nat → List Char → List (List Char)
  | 0, _ => []
  | _ + 1, [] => []
  | n + 1, c :: cs =>
    if isCJK c then (c :: cs.takeWhile isCJK) :: cjkRunsGo n (cs.dropWhile isCJK)
    else cjkRunsGo n cs

/-- Model of `re.findall(r'[一-鿿]{2,}', s)`: maximal CJK runs of
length at least two, in order of occurrence. -/
def cjkRuns (s : String) : List String :=
  ((cjkRunsGo s.data.length s.data).filter (fun r => 2 ≤ r.length)).map String.mk

/-- Alternation list of the SQL pattern
`(SELECT|INSERT|UPDATE|DELETE|CREATE|ALTER|DROP)`, in source order. -/
def sqlKeywords : List (List Char) :=
  [("SELECT").data, ("INSERT").data, ("UPDATE").data, ("DELETE").data,
   ("CREATE").data, ("ALTER").data, ("DROP").data]

/-- Try the SQL keyword alternation case-insensitively at the head of
`l`; on success return the matched slice (the capture of group 1, with
the original casing) and the remainder.  The alternatives are pairwise
non-overlapping at any position, so first-alternative-wins coincides
with Python's alternation semantics. -/
def trySqlKeyword (l : List Char) : Option (List Char × List Char) :=
  sqlKeywords.findSome? fun kw =>
    if ciLeads kw l then some (l.take kw.length, l.drop kw.length) else none

/-- Drop characters up to and including the first `';'` (the lazy
`.*?;` with `re.DOTALL`); `none` when no semicolon remains. -/
def afterSemi : List Char → Option (List Char)
  | [] => none
  | c :: cs => if c == ';' then some cs else afterSemi cs

/-- Attempt the full SQL statement pattern at the head of `l`: keyword,
at least one whitespace character, then lazily anything up to a
semicolon.  Returns the group-1 capture and the scan resumption point. -/
def trySqlAt (l : List Char) : Option (String × List Char) :=
  match trySqlKeyword l with
  | some (grp, rest) =>
    match rest with
    | c :: cs =>
      if c.isWhitespace then (afterSemi (c :: cs)).map (fun r => (String.mk grp, r))
      else none
    | [] => none
  | none => none

/-- Fuelled scanner for
`re.findall(r'(SELECT|...|DROP)\s+.*?;', answer, re.IGNORECASE | re.DOTALL)`.
With a group in the pattern, `re.findall` returns the group captures. -/
def findallSqlGo : Nat → List Char → List String
  | 0, _ => []
  | _ + 1, [] => []
  | n + 1, c :: cs =>
    match trySqlAt (c :: cs) with
    | some (grp, rest) => grp :: findallSqlGo n rest
    | none => findallSqlGo n cs

/-- Model of the `re.findall` call on the SQL pattern in
`enhance_answer`. -/
def findallSql (s : String) : List String :=
  findallSqlGo s.data.length s.data

/-- Lazy capture `(.+?)` followed by a zero-width lookahead: consume the
minimal non-empty amount of characters such that `look` accepts the
remainder.  Returns the capture and the (unconsumed-by-lookahead)
remainder. -/
def lazyCaptureSplit (look : List Char → Bool) : List Char → Option (List Char × List Char)
  | [] => none
  | c :: cs =>
    if look cs then some ([c], cs)
    else (lazyCaptureSplit look cs).map (fun p => (c :: p.1, p.2))

/-- Lookahead test for `(?=步骤\s*\d+)`. -/
def stepNumAhead (l : List Char) : Bool :=
  leadsWith (("步骤").data) l &&
    (match (l.drop 2).dropWhile Char.isWhitespace with
     | c :: _ => pyIsDigit c
     | [] => false)

/-- Lookahead of the step-extraction pattern: next step marker, or `$`
(end of input, or position right before a single trailing newline; no
`re.MULTILINE` is set). -/
def stepLook (l : List Char) : Bool :=
  stepNumAhead l || l.isEmpty || l == ['\n']

/-- Attempt `步骤\s*\d+[:：](.+?)(?=步骤\s*\d+|$)` at the head of `l`
(DOTALL).  Returns the group-1 capture and the scan resumption point. -/
def tryStepAt (l : List Char) : Option (List Char × List Char) :=
  if leadsWith (("步骤").data) l then
    let r := (l.drop 2).dropWhile Char.isWhitespace
    if (r.takeWhile pyIsDigit).isEmpty then none
    else
      match r.dropWhile pyIsDigit with
      | c :: cs => if c == ':' || c == '：' then lazyCaptureSplit stepLook cs else none
      | [] => none
  else none

/-- Fuelled scanner for
`re.findall(r'步骤\s*\d+[:：](.+?)(?=步骤\s*\d+|$)', answer, re.DOTALL)`. -/
def findallStepsGo : Nat → List Char → List String
  | 0, _ => []
  | _ + 1, [] => []
  | n + 1, c :: cs =>
    match tryStepAt (c :: cs) with
    | some (cap, rest) => String.mk cap :: findallStepsGo n rest
    | none => findallStepsGo n cs

/-- Model of the step `re.findall` call in `enhance_answer`. -/
def findallSteps (s : String) : List String :=
  findallStepsGo s.data.length s.data

/-- One entry of the `question_patterns` cascade in
`extract_qa_from_text`: a literal lead-in token, whether a `[:：]` class
follows it, the literal lookahead alternatives, and whether `\n` is a
lookahead alternative.  `$` is an alternative in every pattern. -/
structure QPattern where
  tok : List Char
  useColon : Bool
  stops : List (List Char)
  nlStop : Bool

/-- Lookahead acceptance for a question pattern. -/
def qLook (p : QPattern) (rest : List Char) : Bool :=
  p.stops.any (fun s => leadsWith s rest) ||
  (p.nlStop && rest.head? == some '\n') ||
  rest.isEmpty || rest == ['\n']

/-- Attempt one question pattern at the head of `l`; returns the group-1
capture. -/
def tryQAt (p : QPattern) (l : List Char) : Option (List Char) :=
  if leadsWith p.tok l then
    let rest := l.drop p.tok.length
    let afterColon : Option (List Char) :=
      if p.useColon then
        match rest with
        | c :: cs => if c == ':' || c == '：' then some cs else none
        | [] => none
      else some rest
    afterColon.bind fun r => (lazyCaptureSplit (qLook p) r).map (·.1)
  else none

/-- Fuelled model of `re.search` for one question pattern (DOTALL and
IGNORECASE; the patterns contain no cased letters): leftmost match,
group-1 capture. -/
def searchQGo (p : QPattern) : Nat → List Char → Option (List Char)
  | 0, _ => none
  | _ + 1, [] => none
  | n + 1, c :: cs =>
    match tryQAt p (c :: cs) with
    | some cap => some cap
    | none => searchQGo p n cs

/-- The five `question_patterns` of `extract_qa_from_text`, in source
order. -/
def question_patterns : List QPattern :=
  [⟨("问题").data, true, [("解决").data, ("答案").data, ("方法").data, ("步骤").data], false⟩,
   ⟨("故障").data, true, [("解决").data, ("修复").data, ("处理").data], false⟩,
   ⟨("错误").data, true, [("解决").data, ("修复").data, ("处理").data], false⟩,
   ⟨("如何").data, false, [], true⟩,
   ⟨("怎样").data, false, [], true⟩]

/-- The pattern loop of `extract_qa_from_text`: first pattern with a
match wins; its trimmed group-1 capture is returned. -/
def searchQuestion (content : List Char) : Option String :=
  question_patterns.findSome? fun p =>
    (searchQGo p content.length content).map (fun cap => String.mk (pyStripList cap))

/-- Kind tag of a synthesized Q&A record (`'text' | 'table' | 'image'`). -/
inductive QAType where
  | text
  | table
  | image
deriving DecidableEq

/-- Table dict as produced by `extract_table_data` (keys `headers`,
`rows`) or by `process_excel` (key `data` only); absent keys keep their
default, matching `table.get(key, [])` at the consumer. -/
structure TableDict where
  headers : List String := []
  rows : List (List String) := []
  data : List (List String) := []
deriving DecidableEq

/-- Image info dict: page/slide/index/relation keys are present only for
the adapter that writes them. -/
structure ImageInfo where
  page : Option Nat := none
  slide : Option Nat := none
  index : Option Nat := none
  relation_id : Option String := none
  data : String := ""
  format : Option String := none
deriving DecidableEq

/-- One section dict of the normalized document content. -/
structure DocSection where
  heading : String
  content : String
  tables : List TableDict
  images : List ImageInfo
deriving DecidableEq

/-- Normalized per-file content dict. -/
structure Content where
  title : String
  source_file : String
  type : String
  sections : List DocSection
  images : List ImageInfo
deriving DecidableEq

/-- One synthesized Q&A dict. -/
structure QAPair where
  question : String
  answer : String
  keywords : List String
  source : String
  type : QAType
  image_data : Option String := none
  image_format : Option String := none
deriving DecidableEq

/-- Chinese numerals admitted by the chaptering pattern. -/
def cnNumerals : List Char := ['一', '二', '三', '四', '五', '六', '七', '八', '九', '十']

/-- Character class `[一二三四五六七八九十\d]` of the chaptering
pattern. -/
def isCnNumOrDigit (c : Char) : Bool := cnNumerals.contains c || pyIsDigit c

/-- Anchored match of `^第[一二三四五六七八九十\d]+[章节部分]`. -/
def matchP1 : List Char → Bool
  | c :: rest =>
    c == '第' &&
      !(rest.takeWhile isCnNumOrDigit).isEmpty &&
      (match rest.dropWhile isCnNumOrDigit with
       | b :: _ => b == '章' || b == '节' || b == '部' || b == '分'
       | [] => false)
  | [] => false

/-- Anchored match of `^\d+[\.\s]`. -/
def matchP2 (l : List Char) : Bool :=
  !(l.takeWhile pyIsDigit).isEmpty &&
    (match l.dropWhile pyIsDigit with
     | b :: _ => b == '.' || b.isWhitespace
     | [] => false)

/-- Anchored match of `^[一二三四五六七八九十]+[\.\s]`. -/
def matchP3 (l : List Char) : Bool :=
  !(l.takeWhile (fun c => cnNumerals.contains c)).isEmpty &&
    (match l.dropWhile (fun c => cnNumerals.contains c) with
     | b :: _ => b == '.' || b.isWhitespace
     | [] => false)

/-- Anchored match of `^<tok>[:：]`. -/
def matchLabel (tok : List Char) (l : List Char) : Bool :=
  leadsWith tok l &&
    (match l.drop tok.length with
     | b :: _ => b == ':' || b == '：'
     | [] => false)

/-- Keyword list of the short-text heading heuristic. -/
def heading_keywords : List String :=
  ["问题", "解决", "步骤", "方法", "设置", "配置"]

/-- Model of `DocumentProcessor.is_heading`: the regex cascade runs on
the stripped text, the keyword containment check on the text as
passed. -/
def is_heading (text : String) : Bool :=
  let t := (pyStrip text).data
  matchP1 t || matchP2 t || matchP3 t ||
  matchLabel (("问题").data) t || matchLabel (("解决方案").data) t ||
  matchLabel (("步骤").data) t || matchLabel (("注意").data) t ||
  ((pyStrip text).length < 50 && heading_keywords.any (fun k => pyContains text k))

/-- Model of `extract_table_data`: first row becomes `headers`, the rest
become `rows`, all cell texts stripped. -/
def extract_table_data (cells : List (List String)) : TableDict :=
  match cells.map (fun row => row.map pyStrip) with
  | [] => { }
  | h :: rest => { headers := h, rows := rest }

/-- One body element of a Word document: a paragraph (with its style
name and raw text) or a table (as its grid of raw cell texts). -/
inductive DocElem where
  | para (styleName : String) (text : String)
  | table (cells : List (List String))
deriving DecidableEq

/-- Accumulator of the `process_word` traversal: flushed sections plus
the in-progress `current_section`. -/
structure WordState where
  sections : List DocSection
  current : DocSection
deriving DecidableEq

/-- Flush rule of `process_word`: the current section is appended only
when it has content or tables. -/
def flushSection (secs : List DocSection) (cur : DocSection) : List DocSection :=
  if cur.content ≠ "" ∨ cur.tables ≠ [] then secs ++ [cur] else secs

/-- The heading test applied to a paragraph inside `process_word`
(style name starts with `Heading`, or the heading heuristic fires on the
stripped text). -/
def headingParaCond (styleName text : String) : Bool :=
  leadsWith (("Heading").data) styleName.data || is_heading (pyStrip text)

/-- One step of the `process_word` body traversal. -/
def process_word_step (st : WordState) : DocElem → WordState
  | .para styleName text =>
    let t := pyStrip text
    if t = "" then st
    else if headingParaCond styleName text then
      ⟨flushSection st.sections st.current, ⟨t, "", [], []⟩⟩
    else ⟨st.sections, { st.current with content := st.current.content ++ t ++ "\n" }⟩
  | .table cells =>
    ⟨st.sections, { st.current with tables := st.current.tables ++ [extract_table_data cells] }⟩

/-- The section-building loop of `process_word` (lines 133-159),
including the final flush of the in-progress section. -/
def process_word_sections (elems : List DocElem) : List DocSection :=
  let st := elems.foldl process_word_step ⟨[], ⟨"", "", [], []⟩⟩
  flushSection st.sections st.current

/-- Model of `process_excel`: one section per sheet that has at least
one row with a non-null cell; the whole sheet goes under the `data` key
of a single table dict, null cells becoming empty strings. -/
def process_excel (title source_file : String)
    (sheets : List (String × List (List (Option String)))) : Content :=
  { title := title, source_file := source_file, type := "excel",
    sections := sheets.foldl (fun acc sheet =>
      let sheet_data := (sheet.2.filter (fun row => row.any Option.isSome)).map
        (fun row => row.map (fun cell => cell.getD ""))
      if sheet_data ≠ [] then
        acc ++ [⟨"工作表: " ++ sheet.1, "", [{ data := sheet_data }], []⟩]
      else acc) [],
    images := [] }

/-- One slide shape: whether it exposes text (`hasattr(shape, "text")`),
the text itself, whether it is a picture, the picture blob when its
extraction succeeds (`none` models the logged-and-skipped extraction
failure), and the image's native extension. -/
structure Shape where
  hasText : Bool := false
  text : String := ""
  isPicture : Bool := false
  blob : Option String := none
  ext : String := ""
deriving DecidableEq

/-- The per-slide loop of `process_powerpoint`, started at 0-based slide
index `i`: returns the retained sections and the document-level image
list. -/
def pptGo (i : Nat) : List (List Shape) → List DocSection × List ImageInfo
  | [] => ([], [])
  | shapes :: rest =>
    let slideText := shapes.foldl
      (fun acc sh => if sh.hasText then acc ++ sh.text ++ "\n" else acc) ""
    let imgs := shapes.filterMap fun sh =>
      if sh.isPicture then
        sh.blob.map (fun b => { slide := some (i + 1), data := b, format := some sh.ext : ImageInfo })
      else none
    let tail := pptGo (i + 1) rest
    ((if pyStrip slideText ≠ "" then
        [⟨"幻灯片 " ++ toString (i + 1), slideText, [], []⟩]
      else []) ++ tail.1,
     imgs ++ tail.2)

/-- Model of `process_powerpoint`: all text-bearing shapes feed the
slide's section text; every picture shape appends an image dict to the
document-level image list; a slide is retained as a section only when
its concatenated text is non-empty after stripping. -/
def process_powerpoint (title source_file : String) (slides : List (List Shape)) : Content :=
  { title := title, source_file := source_file, type := "powerpoint",
    sections := (pptGo 0 slides).1,
    images := (pptGo 0 slides).2 }

/-- The question lead-ins whose presence suppresses prefixing in
`generalize_question`. -/
def questionStarters : List String :=
  ["如何", "怎样", "什么", "为什么", "问题"]

/-- Model of `generalize_question`: date, digit, 小区, 用户
substitutions in source order, then the conditional prefix chosen from
the surrounding section text. -/
def generalize_question (question content : String) : String :=
  let generalized := subDate question
  let generalized := subDigits generalized
  let generalized := subXiaoqu generalized
  let generalized := subYonghu generalized
  if !(questionStarters.any fun p => pyContains generalized p) then
    if pyContains content ("设置") || pyContains content ("配置") then
      "如何" ++ generalized
    else if pyContains content ("错误") || pyContains content ("故障") then
      "如何解决" ++ generalized
    else if pyContains content ("步骤") || pyContains content ("流程") then
      "如何进行" ++ generalized
    else generalized
  else generalized

/-- Model of `enhance_answer`: prepend the provenance context, then
append the `re.findall` SQL captures as fenced blocks, then the
renumbered step list when the answer mentions steps. -/
def enhance_answer (answer base_context : String) : String :=
  let enhanced := base_context ++ "\n\n" ++ answer
  let sql_matches := findallSql answer
  let enhanced :=
    if !sql_matches.isEmpty then
      sql_matches.foldl (fun acc sql => acc ++ "```sql\n" ++ sql ++ "\n```\n")
        (enhanced ++ "\n\n相关SQL语句：\n")
    else enhanced
  if pyContains answer ("步骤") then
    let steps := findallSteps answer
    if !steps.isEmpty then
      (steps.enum.map (fun p => (p.1 + 1, p.2))).foldl
        (fun acc p => acc ++ toString p.1 ++ ". " ++ pyStrip p.2 ++ "\n")
        (enhanced ++ "\n\n操作步骤：\n")
    else enhanced
  else enhanced

/-- The fixed technical-term list of `extract_keywords`. -/
def tech_keywords : List String :=
  ["SRMS", "SQL", "IE", "Edge", "Login", "Batch", "Journal",
   "Demand Note", "SPS", "Occupant", "Building ID", "CashType",
   "Synergis", "Community App", "Facility Booking"]

/-- The fixed action-verb list of `extract_keywords`. -/
def action_keywords : List String :=
  ["设置", "配置", "登录", "删除", "更新", "导出", "列印", "解锁",
   "修复", "处理", "解决", "安装", "注册", "上传", "下载"]

/-- Validity of a model of CPython's `list(set(xs))`: the enumeration
has no duplicates and exactly the members of its input. -/
def SetListValid (f : List String → List String) : Prop :=
  ∀ l : List String, (f l).Nodup ∧ ∀ a : String, a ∈ f l ↔ a ∈ l

/-- One concrete valid set enumeration: first occurrence order. -/
def pyOrd1 (l : List String) : List String := l.dedup

/-- Another concrete valid set enumeration: first occurrence order
rotated by one place (two CPython processes with different hash seeds
may disagree in exactly this way). -/
def pyOrd2 (l : List String) : List String := l.dedup.rotate 1

/-- Model of `extract_keywords`, parametrized by the `list(set(·))`
enumeration in effect for the current process. -/
def extract_keywords (setList : List String → List String) (content : String) : List String :=
  let content_lower := pyLower content
  let found_keywords := (tech_keywords ++ action_keywords).filter
    (fun k => pyContains content_lower (pyLower k))
  let important_words := cjkRuns content
  let found_keywords := found_keywords ++ (setList important_words).take 10
  setList found_keywords

/-- Model of `extract_qa_from_text`: the section text is stripped and
newline-collapsed, the question-pattern cascade and the keyword and
answer synthesis all run on that cleaned text. -/
def extract_qa_from_text (setList : List String → List String)
    (heading content base_context : String) : QAPair :=
  let content := cleanContent content
  let question := if heading ≠ "" then heading else "相关问题"
  let question :=
    match searchQuestion content.data with
    | some cap => cap
    | none => question
  { question := generalize_question question content,
    answer := enhance_answer content base_context,
    keywords := extract_keywords setList content,
    source := base_context,
    type := .text }

/-- Model of `extract_qa_from_table`: `None` when either `headers` or
`rows` is empty, otherwise the Markdown-style rendering. -/
def extract_qa_from_table (heading : String) (table : TableDict)
    (base_context : String) : Option QAPair :=
  if table.headers.isEmpty || table.rows.isEmpty then none
  else
    let table_content := "表格标题：" ++ heading ++ "\n" ++ "表格内容：\n"
    let table_content := table_content ++ String.intercalate (" | ") table.headers ++ "\n"
    let table_content := table_content ++
      String.intercalate ("|") (List.replicate table.headers.length ("---")) ++ "\n"
    let table_content := table.rows.foldl
      (fun acc row => acc ++ String.intercalate (" | ") row ++ "\n") table_content
    some { question := "关于" ++ heading ++ "的详细信息",
           answer := table_content,
           keywords := table.headers ++ [heading],
           source := base_context,
           type := .table }

/-- Model of `create_image_qa`. -/
def create_image_qa (doc_title : String) (image : ImageInfo) (index : Nat)
    (base_context : String) : QAPair :=
  let question := doc_title ++ "中的图片" ++ toString (index + 1)
  let answer := "这是来自文档《" ++ doc_title ++ "》的第" ++ toString (index + 1) ++ "张图片。"
  let img_format := image.format.getD ("unknown")
  let answer :=
    match image.page with
    | some p => answer ++ "位于第" ++ toString p ++ "页。"
    | none =>
      match image.slide with
      | some s => answer ++ "位于第" ++ toString s ++ "张幻灯片。"
      | none => answer
  { question := question, answer := answer,
    keywords := [doc_title, "图片", "图像"],
    source := base_context, type := .image,
    image_data := some image.data, image_format := some img_format }

/-- Model of `convert_to_qa_format`: per section a text pair (when the
stripped text is non-empty) then one pair per table (when emitted), and
after all sections one pair per document-level image. -/
def convert_to_qa_format (setList : List String → List String) (content : Content) :
    List QAPair :=
  let base_context := "文档来源：" ++ content.title
  let qa_sections := content.sections.foldl (fun acc sec =>
    let acc :=
      if pyStrip sec.content ≠ "" then
        acc ++ [extract_qa_from_text setList sec.heading sec.content base_context]
      else acc
    sec.tables.foldl (fun acc2 table =>
      match extract_qa_from_table sec.heading table base_context with
      | some qa => acc2 ++ [qa]
      | none => acc2) acc) []
  content.images.enum.foldl
    (fun acc p => acc ++ [create_image_qa content.title p.2 p.1 base_context]) qa_sections

/-- An input file of the driver model: a Word document the adapter can
parse (given as its body elements), or one whose parse raises (the
adapter catches the exception, logs an error and returns `None`). -/
inductive InputFile where
  | wordOk (stem : String) (elems : List DocElem)
  | wordCorrupt (stem : String)
deriving DecidableEq

/-- Stem of an input file. -/
def fileStem : InputFile → String
  | .wordOk stem _ => stem
  | .wordCorrupt stem => stem

/-- Model of `process_word` at the file level: a parseable file yields
its content dict, a corrupt one yields `None` (the internal
`try/except` swallows the parse error).  Embedded image relationships
are not modelled and stay empty. -/
def process_word_file : InputFile → Option Content
  | .wordOk stem elems =>
    some { title := stem, source_file := stem, type := "word",
           sections := process_word_sections elems, images := [] }
  | .wordCorrupt _ => none

/-- A log line of the driver model. -/
inductive LogEntry where
  | adapterError (file : String)
  | emptyWarn (file : String)
deriving DecidableEq

/-- Driver accumulator: the running processed counter, the output file
names written so far, and the error/warning log. -/
structure DriverState where
  processed_count : Nat
  outputs : List String
  logs : List LogEntry
deriving DecidableEq

/-- Python `f"{n:02d}"`. -/
def pad2 (n : Nat) : String :=
  if n < 10 then "0" ++ toString n else toString n

/-- Model of `process_all_documents` over Word inputs: per file, run the
adapter; on `None` the error was logged inside the adapter and nothing
is saved; on content, `save_processed_content` warns when no Q&A pairs
came out and otherwise writes the counter-named output.  The counter
increments after every file because `process_single_document` raises no
exception in either case. -/
def process_all_documents (setList : List String → List String)
    (files : List InputFile) : DriverState :=
  files.foldl (fun st file =>
    match process_word_file file with
    | some content =>
      let qa_pairs := convert_to_qa_format setList content
      if qa_pairs.isEmpty then
        { st with logs := st.logs ++ [.emptyWarn (fileStem file)],
                  processed_count := st.processed_count + 1 }
      else
        { st with
            outputs := st.outputs ++
              [pad2 st.processed_count ++ "_" ++ fileStem file ++ "_processed.docx"],
            processed_count := st.processed_count + 1 }
    | none =>
      { st with logs := st.logs ++ [.adapterError (fileStem file)],
                processed_count := st.processed_count + 1 }) ⟨0, [], []⟩

theorem pyOrd1_valid : SetListValid pyOrd1 := by
  intro l
  exact ⟨List.nodup_dedup l, fun a => List.mem_dedup⟩

theorem pyOrd2_valid : SetListValid pyOrd2 := by
  intro l
  refine ⟨List.nodup_rotate.mpr (List.nodup_dedup l), fun a => ?_⟩
  rw [pyOrd2, List.mem_rotate, List.mem_dedup]

/-- Absence of two consecutive newline characters. -/
def noNlNl : List Char → Bool
  | c :: d :: rest => !(c == '\n' && d == '\n') && noNlNl (d :: rest)
  | _ => true

theorem head?_collapseGo_false : ∀ l : List Char, (collapseGo false l).head? = l.head? := by
  intro l
  cases l with
  | nil => rfl
  | cons c cs =>
    by_cases hc : c = '\n'
    · subst hc; simp [collapseGo]
    · simp [collapseGo, hc]

theorem collapseGo_true_eq_false (c : Char) (cs : List Char) (hc : c ≠ '\n') :
    collapseGo true (c :: cs) = collapseGo false (c :: cs) := by
  simp [collapseGo, hc]

theorem head?_collapseGo_true : ∀ cs : List Char, (collapseGo true cs).head? ≠ some '\n' := by
  intro cs
  induction cs with
  | nil => simp [collapseGo]
  | cons c cs ih =>
    by_cases hc : c = '\n'
    · subst hc; simpa [collapseGo] using ih
    · rw [collapseGo_true_eq_false c cs hc, head?_collapseGo_false]
      simp [hc]

theorem noNlNl_tail : ∀ (c : Char) (cs : List Char), noNlNl (c :: cs) = true → noNlNl cs = true := by
  intro c cs h
  cases cs with
  | nil => rfl
  | cons d rest =>
    have := (Bool.and_eq_true _ _).mp h
    exact this.2

theorem noNlNl_collapseGo : ∀ (l : List Char) (b : Bool), noNlNl (collapseGo b l) = true := by
  intro l
  induction l with
  | nil => intro b; rfl
  | cons c cs ih =>
    intro b
    by_cases hc : c = '\n'
    · subst hc
      cases b with
      | true => simpa [collapseGo] using ih true
      | false =>
        simp only [collapseGo, if_pos (by rfl : ('\n' == '\n') = true)]
        have hX := ih true
        cases hXc : collapseGo true cs with
        | nil => rfl
        | cons d r =>
          have hd : d ≠ '\n' := by
            have := head?_collapseGo_true cs
            rw [hXc] at this
            simpa using fun h => this (by rw [h]; rfl)
          have : noNlNl (d :: r) = true := by rw [← hXc]; exact hX
          simp [noNlNl, hd, this]
    · have hcb : (c == '\n') = false := by simpa using hc
      cases b with
      | true =>
        rw [collapseGo_true_eq_false c cs hc]
        simp only [collapseGo, hcb, if_false]
        cases hYc : collapseGo false cs with
        | nil => rfl
        | cons d r =>
          have : noNlNl (d :: r) = true := by rw [← hYc]; exact ih false
          simp [noNlNl, hcb, this]
      | false =>
        simp only [collapseGo, hcb, if_false]
        cases hYc : collapseGo false cs with
        | nil => rfl
        | cons d r =>
          have : noNlNl (d :: r) = true := by rw [← hYc]; exact ih false
          simp [noNlNl, hcb, this]

theorem collapseGo_false_of_noNlNl : ∀ l : List Char, noNlNl l = true → collapseGo false l = l := by
  intro l
  induction l with
  | nil => intro _; rfl
  | cons c cs ih =>
    intro h
    by_cases hc : c = '\n'
    · subst hc
      simp only [collapseGo, if_pos (by rfl : ('\n' == '\n') = true)]
      cases cs with
      | nil => rfl
      | cons d r =>
        have h1 := (Bool.and_eq_true _ _).mp h
        have hd : d ≠ '\n' := by
          rcases h1 with ⟨hnd, _⟩
          simp only [Bool.not_eq_true', Bool.and_eq_false_iff, beq_eq_false_iff_ne] at hnd
          rcases hnd with h' | h'
          · exact absurd rfl h'
          · exact h'
        rw [collapseGo_true_eq_false d r hd, ih h1.2]
        rfl
    · have hcb : (c == '\n') = false := by simpa using hc
      simp only [collapseGo, hcb]
      rw [ih (noNlNl_tail c cs h)]
      rfl

theorem collapseGo_false_idem (l : List Char) :
    collapseGo false (collapseGo false l) = collapseGo false l :=
  collapseGo_false_of_noNlNl _ (noNlNl_collapseGo l false)

theorem collapseGo_true_all_nl : ∀ cs : List Char, (∀ c ∈ cs, c = '\n') →
    collapseGo true cs = [] := by
  intro cs
  induction cs with
  | nil => intro _; rfl
  | cons c r ih =>
    intro h
    have hc : c = '\n' := h c (List.mem_cons_self c r)
    subst hc
    simp only [collapseGo, if_pos (by rfl : ('\n' == '\n') = true)]
    exact ih fun x hx => h x (List.mem_cons_of_mem _ hx)

theorem getLast?_cons_all_eq : ∀ (l : List Char) (e : Char), (∀ c ∈ l, c = e) →
    (e :: l).getLast? = some e := by
  intro l
  induction l with
  | nil => intro e _; rfl
  | cons c r ih =>
    intro e h
    have hc : c = e := h c (List.mem_cons_self c r)
    subst hc
    rw [List.getLast?_cons_cons]
    exact ih c fun x hx => h x (List.mem_cons_of_mem _ hx)

theorem collapseGo_false_ne_nil (c : Char) (cs : List Char) :
    collapseGo false (c :: cs) ≠ [] := by
  by_cases hc : c = '\n'
  · subst hc; simp [collapseGo]
  · simp [collapseGo, hc]

theorem getLast?_cons_of_ne_nil (a : Char) (l : List Char) (h : l ≠ []) :
    (a :: l).getLast? = l.getLast? := by
  cases l with
  | nil => exact absurd rfl h
  | cons b r => exact List.getLast?_cons_cons

theorem getLast?_collapseGo : ∀ l : List Char,
    (collapseGo false l).getLast? = l.getLast? ∧
    ((∃ c ∈ l, c ≠ '\n') → (collapseGo true l).getLast? = l.getLast?) := by
  intro l
  induction l with
  | nil =>
    refine ⟨rfl, ?_⟩
    rintro ⟨c, hc, _⟩
    cases hc
  | cons c cs ih =>
    have hfalse : (collapseGo false (c :: cs)).getLast? = (c :: cs).getLast? := by
      by_cases hc : c = '\n'
      · subst hc
        simp only [collapseGo, if_pos (by rfl : ('\n' == '\n') = true)]
        by_cases hall : ∀ x ∈ cs, x = '\n'
        · rw [collapseGo_true_all_nl cs hall]
          exact (getLast?_cons_all_eq cs '\n' hall).symm
        · push_neg at hall
          obtain ⟨x, hx, hxn⟩ := hall
          have hcs : cs ≠ [] := by rintro rfl; cases hx
          have h2 := ih.2 ⟨x, hx, hxn⟩
          have hne : collapseGo true cs ≠ [] := by
            intro hnil
            rw [hnil] at h2
            have : cs.getLast? = none := h2.symm
            rw [List.getLast?_eq_none_iff] at this
            exact hcs this
          show ('\n' :: collapseGo true cs).getLast? = ('\n' :: cs).getLast?
          rw [getLast?_cons_of_ne_nil _ _ hne, h2, getLast?_cons_of_ne_nil _ _ hcs]
      · have hcb : (c == '\n') = false := by simpa using hc
        simp only [collapseGo, hcb, if_false]
        cases hcs : cs with
        | nil => simp [collapseGo]
        | cons d r =>
          have hne : collapseGo false (d :: r) ≠ [] := collapseGo_false_ne_nil d r
          show (c :: collapseGo false (d :: r)).getLast? = (c :: d :: r).getLast?
          rw [getLast?_cons_of_ne_nil _ _ hne, (hcs ▸ ih.1 : (collapseGo false (d :: r)).getLast? = (d :: r).getLast?),
            getLast?_cons_of_ne_nil _ _ (by simp : (d : Char) :: r ≠ [])]
    refine ⟨hfalse, ?_⟩
    rintro ⟨x, hx, hxn⟩
    by_cases hc : c = '\n'
    · subst hc
      simp only [collapseGo, if_pos (by rfl : ('\n' == '\n') = true), if_pos rfl]
      have hxcs : x ∈ cs := by
        rcases List.mem_cons.mp hx with h | h
        · exact absurd h hxn
        · exact h
      have hcs : cs ≠ [] := by rintro rfl; cases hxcs
      show (collapseGo true cs).getLast? = ('\n' :: cs).getLast?
      rw [ih.2 ⟨x, hxcs, hxn⟩, getLast?_cons_of_ne_nil _ _ hcs]
    · rw [collapseGo_true_eq_false c cs hc]
      exact hfalse

theorem head?_dropWhile_false {p : Char → Bool} : ∀ {l : List Char} {c : Char},
    (l.dropWhile p).head? = some c → p c = false := by
  intro l
  induction l with
  | nil => intro c h; cases h
  | cons a as ih =>
    intro c h
    by_cases ha : p a
    · rw [List.dropWhile_cons_of_pos ha] at h
      exact ih h
    · rw [List.dropWhile_cons_of_neg ha] at h
      have : a = c := by simpa using h
      subst this
      simpa using ha

theorem dropWhile_eq_self_of_head {p : Char → Bool} {l : List Char}
    (h : ∀ c, l.head? = some c → p c = false) : l.dropWhile p = l := by
  cases l with
  | nil => rfl
  | cons a as =>
    have : p a = false := h a rfl
    exact List.dropWhile_cons_of_neg (by simp [this])

theorem pyStripList_split (l : List Char) :
    l.dropWhile Char.isWhitespace =
      pyStripList l ++ ((l.dropWhile Char.isWhitespace).reverse.takeWhile Char.isWhitespace).reverse := by
  have h := List.takeWhile_append_dropWhile Char.isWhitespace
    (l.dropWhile Char.isWhitespace).reverse
  calc l.dropWhile Char.isWhitespace
      = (l.dropWhile Char.isWhitespace).reverse.reverse := by rw [List.reverse_reverse]
    _ = ((l.dropWhile Char.isWhitespace).reverse.takeWhile Char.isWhitespace ++
          (l.dropWhile Char.isWhitespace).reverse.dropWhile Char.isWhitespace).reverse := by rw [h]
    _ = _ := by
          rw [List.reverse_append]
          rfl

theorem head?_pyStripList_not_ws {l : List Char} {c : Char}
    (h : (pyStripList l).head? = some c) : c.isWhitespace = false := by
  have hsplit := pyStripList_split l
  have hne : pyStripList l ≠ [] := by
    intro hnil
    rw [hnil] at h
    cases h
  have : (l.dropWhile Char.isWhitespace).head? = some c := by
    rw [hsplit]
    cases hp : pyStripList l with
    | nil => exact absurd hp hne
    | cons a as =>
      rw [hp] at h
      simpa using h
  exact head?_dropWhile_false this

theorem getLast?_pyStripList_not_ws {l : List Char} {c : Char}
    (h : (pyStripList l).getLast? = some c) : c.isWhitespace = false := by
  have : ((pyStripList l).reverse).head? = some c := by
    rw [List.head?_reverse]
    exact h
  have hrev : (pyStripList l).reverse =
      (l.dropWhile Char.isWhitespace).reverse.dropWhile Char.isWhitespace := by
    rw [pyStripList, List.reverse_reverse]
  rw [hrev] at this
  exact head?_dropWhile_false this

theorem pyStripList_collapseGo (l : List Char) :
    pyStripList (collapseGo false (pyStripList l)) = collapseGo false (pyStripList l) := by
  set S := pyStripList l with hS
  set K := collapseGo false S with hK
  have hdrop : K.dropWhile Char.isWhitespace = K := by
    apply dropWhile_eq_self_of_head
    intro c hc
    rw [hK, head?_collapseGo_false] at hc
    exact head?_pyStripList_not_ws (hS ▸ hc)
  have hdropRev : K.reverse.dropWhile Char.isWhitespace = K.reverse := by
    apply dropWhile_eq_self_of_head
    intro c hc
    rw [List.head?_reverse] at hc
    rw [hK, (getLast?_collapseGo S).1] at hc
    exact getLast?_pyStripList_not_ws (hS ▸ hc)
  rw [pyStripList, hdrop, hdropRev, List.reverse_reverse]

theorem cleanContent_idem (s : String) : cleanContent (cleanContent s) = cleanContent s := by
  show collapseNewlines (pyStrip (collapseNewlines (pyStrip s))) = collapseNewlines (pyStrip s)
  unfold collapseNewlines pyStrip
  congr 1
  show collapseGo false (pyStripList (collapseGo false (pyStripList s.data))) =
    collapseGo false (pyStripList s.data)
  rw [pyStripList_collapseGo, collapseGo_false_idem]

theorem mem_extract_keywords {f : List String → List String} (hf : SetListValid f)
    (c : String) (hlen : (cjkRuns c).dedup.length ≤ 10) (a : String) :
    a ∈ extract_keywords f c ↔
      (a ∈ (tech_keywords ++ action_keywords).filter
          (fun k => pyContains (pyLower c) (pyLower k)) ∨
       a ∈ cjkRuns c) := by
  unfold extract_keywords
  rw [(hf _).2 a, List.mem_append]
  have htake : (f (cjkRuns c)).take 10 = f (cjkRuns c) := by
    apply List.take_of_length_le
    have hsub : f (cjkRuns c) ⊆ (cjkRuns c).dedup := by
      intro x hx
      exact List.mem_dedup.mpr (((hf (cjkRuns c)).2 x).mp hx)
    have := ((hf (cjkRuns c)).1.subperm hsub).length_le
    omega
  rw [htake, (hf _).2 a]

/-- Erase a shape's text while keeping everything else (used to compare
a deck against the same deck with all slide text removed). -/
def muteShape (sh : Shape) : Shape := { sh with text := "" }

theorem mute_fold_all_nl : ∀ (shapes : List Shape) (acc : String),
    (∀ c ∈ acc.data, c = '\n') →
    ∀ c ∈ ((shapes.map muteShape).foldl
        (fun acc sh => if sh.hasText then acc ++ sh.text ++ "\n" else acc) acc).data,
      c = '\n' := by
  intro shapes
  induction shapes with
  | nil => intro acc hacc c hc; exact hacc c hc
  | cons sh rest ih =>
    intro acc hacc c hc
    rw [List.map_cons, List.foldl_cons] at hc
    refine ih _ ?_ c hc
    intro x hx
    by_cases hT : sh.hasText
    · simp only [muteShape, hT, if_true, String.data_append] at hx
      rcases List.mem_append.mp hx with hx | hx
      · rcases List.mem_append.mp hx with hx | hx
        · exact hacc x hx
        · cases hx
      · simpa using hx
    · simp only [muteShape, hT, if_false] at hx
      exact hacc x hx

theorem pyStrip_all_nl (s : String) (h : ∀ c ∈ s.data, c = '\n') : pyStrip s = "" := by
  have hdrop : s.data.dropWhile Char.isWhitespace = [] := by
    rw [List.dropWhile_eq_nil_iff]
    intro x hx
    rw [h x hx]
    rfl
  show String.mk (pyStripList s.data) = ""
  rw [pyStripList, hdrop]
  rfl

theorem pptGo_mute : ∀ (slides : List (List Shape)) (i : Nat),
    (pptGo i (slides.map (fun sl => sl.map muteShape))).1 = [] ∧
    (pptGo i (slides.map (fun sl => sl.map muteShape))).2 = (pptGo i slides).2 ∧
    ∀ s ∈ (pptGo i slides).1, s.images = [] := by
  intro slides
  induction slides with
  | nil => intro i; exact ⟨rfl, rfl, fun s hs => by cases hs⟩
  | cons sl rest ih =>
    intro i
    have hmutetext :
        pyStrip ((sl.map muteShape).foldl
          (fun acc sh => if sh.hasText then acc ++ sh.text ++ "\n" else acc) "") = "" := by
      apply pyStrip_all_nl
      exact mute_fold_all_nl sl "" (fun c hc => by cases hc)
    have himgs : (sl.map muteShape).filterMap (fun sh =>
        if sh.isPicture then
          sh.blob.map (fun b => { slide := some (i + 1), data := b, format := some sh.ext : ImageInfo })
        else none) =
        sl.filterMap (fun sh =>
        if sh.isPicture then
          sh.blob.map (fun b => { slide := some (i + 1), data := b, format := some sh.ext : ImageInfo })
        else none) := by
      rw [List.filterMap_map]
      rfl
    refine ⟨?_, ?_, ?_⟩
    · show (pptGo i (sl.map muteShape :: rest.map (fun sl => sl.map muteShape))).1 = []
      simp only [pptGo]
      rw [hmutetext]
      have hcond : ¬(("" : String) ≠ "") := by simp
      rw [if_neg hcond, List.nil_append]
      exact (ih (i + 1)).1
    · show (pptGo i (sl.map muteShape :: rest.map (fun sl => sl.map muteShape))).2 = _
      simp only [pptGo, himgs]
      rw [(ih (i + 1)).2.1]
    · intro s hs
      simp only [pptGo] at hs
      rcases List.mem_append.mp hs with hs | hs
      · by_cases hT : pyStrip (sl.foldl
            (fun acc sh => if sh.hasText then acc ++ sh.text ++ "\n" else acc) "") ≠ ""
        · rw [if_pos hT] at hs
          rcases List.mem_singleton.mp hs with rfl
          rfl
        · rw [if_neg hT] at hs
          cases hs
      · exact (ih (i + 1)).2.2 s hs

theorem step_heading_heading (s1 t1 s2 t2 : String)
    (h1 : headingParaCond s1 t1 = true) (h2 : headingParaCond s2 t2 = true)
    (hn1 : pyStrip t1 ≠ "") (hn2 : pyStrip t2 ≠ "") (st : WordState) :
    process_word_step (process_word_step st (.para s1 t1)) (.para s2 t2) =
      process_word_step st (.para s2 t2) := by
  simp only [process_word_step, hn1, h1, h2, if_neg hn1, if_neg hn2, if_pos h1, if_pos h2,
    if_false, if_true]
  simp [flushSection]

/-- C1: the claim expects the enhanced text to contain a fenced block
with the full statement `SELECT * FROM users;`; because the source calls
`re.findall` on a pattern whose only group is the keyword alternation,
the fenced block contains just the keyword `SELECT`.  This theorem
evaluates the embedded `enhance_answer` at the failing input: the fenced
block is exactly three backticks, `sql`, newline, `SELECT`, newline,
three backticks, and no fenced block holds the full statement. -/
theorem claim1_sql_block_truncated :
    enhance_answer ("SELECT * FROM users;") ("文档来源：users") =
      "文档来源：users\n\nSELECT * FROM users;\n\n相关SQL语句：\n```sql\nSELECT\n```\n" ∧
    pyContains (enhance_answer ("SELECT * FROM users;") ("文档来源：users"))
      ("```sql\nSELECT\n```") = true ∧
    pyContains (enhance_answer ("SELECT * FROM users;") ("文档来源：users"))
      ("```sql\nSELECT * FROM users;\n```") = false := by
  refine ⟨rfl, rfl, rfl⟩

/-- The workbook of the C2 scenario: one sheet `Sheet1` with the two
rows `["Name","Age"]` and `["Bob","30"]`. -/
def wbSheet1 : List (String × List (List (Option String))) :=
  [(("Sheet1"), [[some ("Name"), some ("Age")], [some ("Bob"), some ("30")]])]

/-- C2 counterexample: on the claimed workbook the synthesizer emits no
QAPair at all — in particular not the claimed table-type QAPair — since
`process_excel` stores the sheet under the `data` key while
`extract_qa_from_table` reads `headers` and `rows` (both empty, so it
returns `None`). -/
theorem claim2_counterexample :
    convert_to_qa_format pyOrd1 (process_excel ("wb") ("wb.xlsx") wbSheet1) = [] := by
  rfl

/-- C2 amended: the adapter yields one section with heading
`工作表: Sheet1` holding one table record with the two rows under its
`data` key and empty `headers`/`rows` keys, and downstream the
synthesizer emits no table-type QAPair (zero QAPairs) for the sheet. -/
theorem claim2_amended :
    (process_excel ("wb") ("wb.xlsx") wbSheet1).sections =
      [⟨"工作表: Sheet1", "", [{ data := [["Name", "Age"], ["Bob", "30"]] }], []⟩] ∧
    convert_to_qa_format pyOrd1 (process_excel ("wb") ("wb.xlsx") wbSheet1) = [] := by
  refine ⟨rfl, rfl⟩

/-- The C3 batch: three supported files, the second of which the Word
adapter cannot parse. -/
def batch3 : List InputFile :=
  [.wordOk ("f1") [.para ("Normal") ("你好世界内容")],
   .wordCorrupt ("f2"),
   .wordOk ("f3") [.para ("Normal") ("欢迎光临本店")]]

/-- C3: the driver does emit output for files 1 and 3 and an error log
entry for file 2 without aborting, but the final processed count is 3,
not 2: `process_word` swallows the parse failure and returns `None`, so
the driver's increment (which runs whenever no exception escapes
`process_single_document`) counts the failed file as well.  The output
names `00_…`/`02_…` show the counter also advanced over the failed
file. -/
theorem claim3_driver_counts_failed_file :
    (process_all_documents pyOrd1 batch3).processed_count = 3 ∧
    (process_all_documents pyOrd1 batch3).outputs =
      ["00_f1_processed.docx", "02_f3_processed.docx"] ∧
    (process_all_documents pyOrd1 batch3).logs = [.adapterError ("f2")] := by
  refine ⟨rfl, rfl, rfl⟩

/-- The C4 deck: slide 1 has text and a picture, slide 2 has an empty
text shape and a picture. -/
def deckA : List (List Shape) :=
  [[⟨true, "标题", false, none, ""⟩, ⟨false, "", true, some ("IMG1"), "png"⟩],
   [⟨true, "", false, none, ""⟩, ⟨false, "", true, some ("IMG2"), "jpeg"⟩]]

/-- C4 counterexample: on `deckA` the retained section for slide 1 has
an empty `images` list (its picture did not go to the slide's section),
and the picture of slide 2 — whose text is empty, so the slide is
dropped — still appears in the document-level image list, contradicting
both halves of the claim. -/
theorem claim4_counterexample :
    (process_powerpoint ("deck") ("deck.pptx") deckA).sections =
      [⟨"幻灯片 1", "标题\n", [], []⟩] ∧
    (process_powerpoint ("deck") ("deck.pptx") deckA).images =
      [⟨none, some 1, none, none, "IMG1", some ("png")⟩,
       ⟨none, some 2, none, none, "IMG2", some ("jpeg")⟩] := by
  refine ⟨rfl, rfl⟩

/-- C4 amended: picture shapes contribute their image record to the
document-level `DocumentContent.images` (tagged with the slide number),
never to the slide's section, and those records are retained even when
every slide's text is emptied (all sections dropped): erasing all shape
text drops every section but leaves the image list unchanged. -/
theorem claim4_amended_images_survive (title path : String) (slides : List (List Shape)) :
    (process_powerpoint title path (slides.map fun sl => sl.map muteShape)).sections = [] ∧
    (process_powerpoint title path (slides.map fun sl => sl.map muteShape)).images =
      (process_powerpoint title path slides).images ∧
    ((process_powerpoint title path slides).sections.all fun s => s.images.isEmpty) = true := by
  refine ⟨(pptGo_mute slides 0).1, (pptGo_mute slides 0).2.1, ?_⟩
  rw [List.all_eq_true]
  intro s hs
  have h := (pptGo_mute slides 0).2.2 s hs
  simp [h]

/-- C5 counterexample: two valid models of CPython's `list(set(·))`
enumeration (two processes with different hash seeds) produce different
keyword lists for the same content, so keyword extraction — and hence
the serialized payload — is not deterministic across runs as claimed. -/
theorem claim5_counterexample :
    SetListValid pyOrd1 ∧ SetListValid pyOrd2 ∧
      extract_keywords pyOrd1 ("干部 群众 文化") ≠
        extract_keywords pyOrd2 ("干部 群众 文化") :=
  ⟨pyOrd1_valid, pyOrd2_valid, by decide⟩

/-- C5 amended: keyword extraction is stable across runs only up to
membership, and only when the content has at most 10 distinct CJK runs:
for any two valid set enumerations the extracted keyword collections
have exactly the same members (the order, and the chosen subset when
more than 10 distinct runs exist, may differ between runs). -/
theorem claim5_amended_membership_stable (f g : List String → List String) (c : String)
    (hf : SetListValid f) (hg : SetListValid g)
    (hlen : (cjkRuns c).dedup.length ≤ 10) (a : String) :
    a ∈ extract_keywords f c ↔ a ∈ extract_keywords g c :=
  (mem_extract_keywords hf c hlen a).trans (mem_extract_keywords hg c hlen a).symm

/-- C5 witness: the amended stability theorem applied at the concrete
content and enumerations of the counterexample. -/
theorem claim5_amended_membership_stable_witness :
    SetListValid pyOrd1 ∧ SetListValid pyOrd2 ∧
      (cjkRuns ("干部 群众 文化")).dedup.length ≤ 10 ∧
      (("干部" ∈ extract_keywords pyOrd1 ("干部 群众 文化")) ↔
        ("干部" ∈ extract_keywords pyOrd2 ("干部 群众 文化"))) :=
  ⟨pyOrd1_valid, pyOrd2_valid, by decide,
    claim5_amended_membership_stable pyOrd1 pyOrd2 ("干部 群众 文化")
      pyOrd1_valid pyOrd2_valid (by decide) ("干部")⟩

/-- The C6 content: one section whose heading `A` also appears among the
headers of its table. -/
def dupContent : Content :=
  { title := "doc", source_file := "doc.docx", type := "word",
    sections := [⟨"A", "", [{ headers := ["A"], rows := [["1"]] }], []⟩],
    images := [] }

/-- C6 counterexample: the table synthesis path builds
`keywords = headers ++ [heading]` without deduplication, so a produced
QAPair can carry the duplicate keyword list `["A", "A"]`. -/
theorem claim6_counterexample :
    (convert_to_qa_format pyOrd1 dupContent).map (fun qa => qa.keywords) = [["A", "A"]] ∧
      ¬ ∀ qa ∈ convert_to_qa_format pyOrd1 dupContent, qa.keywords.Nodup := by
  refine ⟨rfl, by decide⟩

/-- C6 amended: only the text synthesis path deduplicates its keywords
(they end with a `list(set(·))` pass); every text-path QAPair has a
duplicate-free keyword list, while table-path (and image-path) keyword
lists may contain duplicates. -/
theorem claim6_amended_text_keywords_nodup (f : List String → List String)
    (hf : SetListValid f) (heading content base : String) :
    (extract_qa_from_text f heading content base).keywords.Nodup := by
  show (extract_keywords f (cleanContent content)).Nodup
  exact (hf _).1

/-- C6 witness: the text-path deduplication theorem at a concrete
section. -/
theorem claim6_amended_text_keywords_nodup_witness :
    SetListValid pyOrd1 ∧
      (extract_qa_from_text pyOrd1 ("h") ("内容文字") ("src")).keywords.Nodup :=
  ⟨pyOrd1_valid, claim6_amended_text_keywords_nodup pyOrd1 pyOrd1_valid ("h") ("内容文字") ("src")⟩

/-- C7: the table-derived QAPair for `headers = ["A","B"]`,
`rows = [["1","2"]]` under heading `X` has exactly the claimed answer
rendering and question (for any provenance context). -/
theorem claim7_table_rendering (base : String) :
    extract_qa_from_table ("X") { headers := ["A", "B"], rows := [["1", "2"]] } base =
      some { question := "关于X的详细信息",
             answer := "表格标题：X\n表格内容：\nA | B\n---|---\n1 | 2\n",
             keywords := ["A", "B", "X"], source := base, type := QAType.table } := by
  rfl

/-- C7 witness: the rendering theorem at a concrete provenance
context. -/
theorem claim7_table_rendering_witness :
    extract_qa_from_table ("X") { headers := ["A", "B"], rows := [["1", "2"]] } ("文档来源：d") =
      some { question := "关于X的详细信息",
             answer := "表格标题：X\n表格内容：\nA | B\n---|---\n1 | 2\n",
             keywords := ["A", "B", "X"], source := "文档来源：d", type := QAType.table } :=
  claim7_table_rendering ("文档来源：d")

/-- C8: for the question `2023-05-01 小区102 出现错误` and any section
text containing `错误` but neither `设置` nor `配置`, the
generalization replaces the date first, then the remaining digit run
(so the `小区\d+` rule no longer fires), and prepends `如何解决`. -/
theorem claim8_generalize_question (content : String)
    (h1 : pyContains content ("错误") = true)
    (h2 : pyContains content ("设置") = false)
    (h3 : pyContains content ("配置") = false) :
    generalize_question ("2023-05-01 小区102 出现错误") content =
      "如何解决[日期] 小区[数字] 出现错误" := by
  unfold generalize_question
  simp only [h1, h2, h3]
  rfl

/-- C8 witness: the generalization theorem with the question string
itself as the surrounding section text. -/
theorem claim8_generalize_question_witness :
    pyContains ("2023-05-01 小区102 出现错误") ("错误") = true ∧
    pyContains ("2023-05-01 小区102 出现错误") ("设置") = false ∧
    pyContains ("2023-05-01 小区102 出现错误") ("配置") = false ∧
    generalize_question ("2023-05-01 小区102 出现错误") ("2023-05-01 小区102 出现错误") =
      "如何解决[日期] 小区[数字] 出现错误" :=
  ⟨rfl, rfl, rfl, claim8_generalize_question ("2023-05-01 小区102 出现错误") rfl rfl rfl⟩

/-- C9: the text synthesis path depends on the section text only
through `cleanContent` (strip, then collapse newline runs): the whole
QAPair is unchanged when the text is replaced by its cleaned form, and
the answer field is the enhancement of the cleaned text, not of the
verbatim text. -/
theorem claim9_text_path_cleaned (f : List String → List String)
    (heading content base : String) :
    extract_qa_from_text f heading content base =
      extract_qa_from_text f heading (cleanContent content) base ∧
    (extract_qa_from_text f heading content base).answer =
      enhance_answer (cleanContent content) base := by
  constructor
  · unfold extract_qa_from_text
    rw [cleanContent_idem]
  · rfl

/-- C10: in the Word adapter, a heading paragraph immediately followed
by another heading paragraph opens a section with no content and no
tables; that section is not flushed, so inserting a bodyless heading
right before another heading leaves the emitted section list
unchanged — the first heading is silently lost. -/
theorem claim10_heading_without_body_lost (pre post : List DocElem) (s1 t1 s2 t2 : String)
    (h1 : headingParaCond s1 t1 = true) (h2 : headingParaCond s2 t2 = true)
    (hn1 : pyStrip t1 ≠ "") (hn2 : pyStrip t2 ≠ "") :
    process_word_sections (pre ++ DocElem.para s1 t1 :: DocElem.para s2 t2 :: post) =
      process_word_sections (pre ++ DocElem.para s2 t2 :: post) := by
  unfold process_word_sections
  rw [List.foldl_append, List.foldl_append, List.foldl_cons, List.foldl_cons, List.foldl_cons,
    step_heading_heading s1 t1 s2 t2 h1 h2 hn1 hn2]

/-- C10 witness: a concrete document in which a style-classified heading
is followed by a heuristically classified heading; the bodyless first
heading appears in no emitted section. -/
theorem claim10_heading_without_body_lost_witness :
    headingParaCond ("Heading 1") ("概述部分") = true ∧
    headingParaCond ("Normal") ("问题：无法登录") = true ∧
    pyStrip ("概述部分") ≠ "" ∧
    pyStrip ("问题：无法登录") ≠ "" ∧
    process_word_sections
        [DocElem.para ("Heading 1") ("概述部分"), DocElem.para ("Normal") ("问题：无法登录"),
         DocElem.para ("Normal") ("请联系管理员重置密码")] =
      process_word_sections
        [DocElem.para ("Normal") ("问题：无法登录"),
         DocElem.para ("Normal") ("请联系管理员重置密码")] :=
  ⟨by decide, by decide, by decide, by decide,
    claim10_heading_without_body_lost [] [DocElem.para ("Normal") ("请联系管理员重置密码")]
      ("Heading 1") ("概述部分") ("Normal") ("问题：无法登录")
      (by decide) (by decide) (by decide) (by decide)⟩
